import Mathlib

/-!
Verification of the simulation core of the blutfehde artillery game.

The definitions below are a shallow embedding of the game logic found in
the repository source (components/WormsGame.tsx and constants.ts):

* `nextTurn` embeds the turn-advance function `nextTurn` (turn index
  increment modulo roster size, skipping dead characters, with a
  game-over check after at most one full cycle of attempts).
* `impactWorm` embeds the per-character body of the `handleExplosion`
  roster map (distance, damage, knockback, death marking).
* `deformTerrain` embeds the crater deformation loop of `deformTerrain`.
* `getTerrainHeightAt` embeds the clamped height lookup.
* `moveActiveWorm` embeds the horizontal-movement clamping block of the
  `animate` input handler.

JavaScript numbers are modelled by `ℚ` (the arithmetic performed by the
relevant code paths is exact on the inputs considered), with two
deliberate exceptions, each noted at its definition: `Math.sqrt` is a
function parameter `s : ℚ → ℚ` because exact square roots are not
rational, and a JavaScript division whose divisor is zero (which yields
the non-finite value NaN for 0/0) is modelled by `jsDiv` returning
`none`.
-/

/-! ## Definitions -/

/-- From constants.ts: TERRAIN_WIDTH = 200. -/
def TERRAIN_WIDTH : ℚ := 200

/-- From constants.ts: TERRAIN_SEGMENTS = 200 (the heightmap array has
TERRAIN_SEGMENTS + 1 entries). -/
def TERRAIN_SEGMENTS : ℕ := 200

/-- A character record: the fields of the `Worm` interface used by the
simulation logic (id and name are identity data never read by the logic
verified here; rotation and aimAngle play no part in the claims). -/
structure Worm where
  teamId : ℕ
  hp : ℤ
  x : ℚ
  y : ℚ
  isDead : Bool
deriving DecidableEq

/-- Placeholder worm used for list indexing defaults; every theorem that
reads a worm through `List.getD` does so at an index proved to be in
bounds, so this value is never the one actually read. -/
def defaultWorm : Worm := { teamId := 0, hp := 0, x := 0, y := 0, isDead := false }

/-- The skip-dead loop of `nextTurn`:
`while (worms[nextIndex].isDead && attempts < worms.length) { nextIndex = (nextIndex+1) % worms.length; attempts++ }`.
The loop runs at most `worms.length - attempts` more iterations, so it is
written structurally on that remaining-iteration count `fuel`; the guard
`attempts < worms.length` of the source is exactly `0 < fuel` under the
invariant `fuel + attempts = worms.length` established by the caller. -/
def skipDeadAux (ws : List Worm) : ℕ → ℕ → ℕ → ℕ × ℕ
  | 0, idx, attempts => (idx, attempts)
  | fuel + 1, idx, attempts =>
    if (ws.getD idx defaultWorm).isDead = true then
      skipDeadAux ws fuel ((idx + 1) % ws.length) (attempts + 1)
    else (idx, attempts)

/-- The `nextTurn` function of WormsGame.tsx: advance to
`(current + 1) % worms.length`, skip dead worms for at most
`worms.length` attempts, and report game over (modelled as `none`) when
the attempts are exhausted, otherwise the new turn index (`some i`).
The wind re-roll and timer reset of the source mutate no character or
turn data and are omitted. -/
def nextTurn (ws : List Worm) (current : ℕ) : Option ℕ :=
  let start := (current + 1) % ws.length
  let r := skipDeadAux ws ws.length start 0
  if ws.length ≤ r.2 then none else some r.1

/-- From handleExplosion: `const explosionRadius = 8`. -/
def explosionRadius : ℚ := 8

/-- From handleExplosion: `const maxDamage = 40`. -/
def maxDamage : ℚ := 40

/-- The damage applied to a worm at planar distance `dist` from the
impact point, from handleExplosion:
`if (dist < explosionRadius) { const dmg = Math.floor(maxDamage * (1 - dist/explosionRadius)); w.hp -= dmg; }`;
worms at or beyond the radius take no damage. -/
def explosionDamage (dist : ℚ) : ℤ :=
  if dist < explosionRadius then ⌊maxDamage * (1 - dist / explosionRadius)⌋ else 0

/-- JavaScript division, partial on a zero divisor: `0/0` is NaN and
`a/0` is an infinity, none of which is a rational; both are modelled as
`none`. In handleExplosion the divisor is the planar distance, which is
zero exactly when the worm sits at the impact point, in which case the
numerator dx is zero as well, so a `none` produced here stands for NaN. -/
def jsDiv (a b : ℚ) : Option ℚ := if b = 0 then none else some (a / b)

/-- The outcome of `handleExplosion` for one worm: its new hp, its new
x-position (`none` when the source computation produced NaN), and its
new dead flag. -/
structure ImpactResult where
  hp : ℤ
  x : Option ℚ
  isDead : Bool
deriving DecidableEq

/-- The body of the per-worm roster map inside handleExplosion, with the
impact point `(ix, iy)` and `Math.sqrt` passed as `s`:
distance from the impact, damage and knockback when inside the radius,
then the death check `if (w.hp <= 0) w.isDead = true`. Note that the
source applies this body to every worm of the roster, with no test of
the dead flag. -/
def impactWorm (s : ℚ → ℚ) (ix iy : ℚ) (w : Worm) : ImpactResult :=
  let dx := w.x - ix
  let dy := w.y - iy
  let dist := s (dx * dx + dy * dy)
  if dist < explosionRadius then
    let dmg : ℤ := ⌊maxDamage * (1 - dist / explosionRadius)⌋
    let hp1 := w.hp - dmg
    let knockbackForce := (explosionRadius - dist) * (1 / 2)
    { hp := hp1,
      x := (jsDiv dx dist).map (fun q => w.x + q * knockbackForce),
      isDead := w.isDead || decide (hp1 ≤ 0) }
  else
    { hp := w.hp, x := some w.x, isDead := w.isDead || decide (w.hp ≤ 0) }

/-- The roster map of handleExplosion: every worm goes through
`impactWorm`. -/
def handleExplosionWorms (s : ℚ → ℚ) (ix iy : ℚ) (ws : List Worm) : List ImpactResult :=
  ws.map (impactWorm s ix iy)

/-- A concrete stand-in for `Math.sqrt` agreeing with the real square
root on the inputs exercised by the concrete evaluations below:
16 maps to 4 and 0 maps to 0. -/
def sqrt16 : ℚ → ℚ := fun q => if q = 16 then 4 else 0

/-- A four-worm roster mirroring the initial match roster, with the dead
flags forming the pattern dead, live, dead, live (both team-1 members
dead, both team-2 members alive). -/
def rosterMixed : List Worm :=
  [ { teamId := 1, hp := 0, x := -40, y := 0, isDead := true },
    { teamId := 2, hp := 100, x := 40, y := 0, isDead := false },
    { teamId := 1, hp := 0, x := -20, y := 0, isDead := true },
    { teamId := 2, hp := 100, x := 20, y := 0, isDead := false } ]

/-- A living worm positioned exactly at the impact point used in the
zero-distance evaluation. -/
def wormAtImpact : Worm := { teamId := 1, hp := 100, x := 3, y := 2, isDead := false }

/-- A living worm with 10 hp at planar distance 4 from the origin. -/
def wormLowHp : Worm := { teamId := 1, hp := 10, x := 4, y := 0, isDead := false }

/-- A dead worm at planar distance 4 from the origin. -/
def deadWorm : Worm := { teamId := 2, hp := 0, x := 4, y := 0, isDead := true }

/-- A living worm one unit inside the right edge of the playable width. -/
def wormNearEdge : Worm := { teamId := 1, hp := 100, x := 99, y := 0, isDead := false }

/-- The left/right movement key snapshot read by the animate input
handler. -/
structure MoveKeys where
  left : Bool
  right : Bool
deriving DecidableEq

/-- The horizontal-movement block of the animate input handler
(moveSpeed 0.1), acting on the active worm position x:
`if (ArrowLeft) { x -= 0.1; if (x < -TERRAIN_WIDTH/2) x = -TERRAIN_WIDTH/2; }`
then the symmetric ArrowRight block clamping at +TERRAIN_WIDTH/2.
The facing-rotation assignments of the source touch no position data
and are omitted. -/
def moveActiveWorm (keys : MoveKeys) (x : ℚ) : ℚ :=
  let x1 := if keys.left = true then
      (if x - 1 / 10 < -(TERRAIN_WIDTH / 2) then -(TERRAIN_WIDTH / 2) else x - 1 / 10)
    else x
  if keys.right = true then
    (if x1 + 1 / 10 > TERRAIN_WIDTH / 2 then TERRAIN_WIDTH / 2 else x1 + 1 / 10)
  else x1

/-- The world x-coordinate of height sample `i`, as computed inside the
deformTerrain loop: `(i / TERRAIN_SEGMENTS) * TERRAIN_WIDTH - TERRAIN_WIDTH / 2`. -/
def worldX (i : ℕ) : ℚ :=
  ((i : ℚ) / (TERRAIN_SEGMENTS : ℚ)) * TERRAIN_WIDTH - TERRAIN_WIDTH / 2

/-- The getTerrainHeightAt lookup of WormsGame.tsx:
`const i = Math.floor(((x + TERRAIN_WIDTH/2) / TERRAIN_WIDTH) * TERRAIN_SEGMENTS)`,
returning `terrainHeights[0]` for `i < 0`, `terrainHeights[TERRAIN_SEGMENTS]`
for `i > TERRAIN_SEGMENTS`, and `terrainHeights[i]` otherwise. -/
def getTerrainHeightAt (heights : List ℚ) (x : ℚ) : ℚ :=
  let i : ℤ := ⌊((x + TERRAIN_WIDTH / 2) / TERRAIN_WIDTH) * (TERRAIN_SEGMENTS : ℚ)⌋
  if i < 0 then heights.getD 0 0
  else if (TERRAIN_SEGMENTS : ℤ) < i then heights.getD TERRAIN_SEGMENTS 0
  else heights.getD i.toNat 0

/-- The effect of one deformTerrain call on the height sample at index
`i` (with `Math.sqrt` passed as `s`): the sample changes only when `i`
lies in the loop range `[centerIndex - radiusIndices, centerIndex +
radiusIndices]`, is a valid index (`0 ≤ i ≤ TERRAIN_SEGMENTS`, the lower
bound being automatic for a natural `i`), and its world coordinate is
within `radius` of the crater center `x`; it is then lowered by
`s(radius² − dist²)`, from
`const depth = Math.sqrt(radius*radius - dist*dist); ... terrainHeights[i] = currentY - depth`. -/
def deformAt (s : ℚ → ℚ) (x radius : ℚ) (i : ℕ) (h : ℚ) : ℚ :=
  let centerIndex : ℤ := ⌊((x + TERRAIN_WIDTH / 2) / TERRAIN_WIDTH) * (TERRAIN_SEGMENTS : ℚ)⌋
  let radiusIndices : ℤ := ⌊(radius / TERRAIN_WIDTH) * (TERRAIN_SEGMENTS : ℚ) * 2⌋
  if centerIndex - radiusIndices ≤ (i : ℤ) ∧ (i : ℤ) ≤ centerIndex + radiusIndices ∧
      (i : ℤ) ≤ (TERRAIN_SEGMENTS : ℤ) then
    if |worldX i - x| < radius then
      h - s (radius * radius - |worldX i - x| * |worldX i - x|)
    else h
  else h

/-- The deformTerrain crater loop of WormsGame.tsx. The source loop
visits each index at most once and `centerIndex`/`radiusIndices` do not
change during the loop, so the loop is rendered as the index-wise map of
`deformAt` over the height list. The visual-mesh vertex writes of the
source touch only render state and are omitted. -/
def deformTerrain (s : ℚ → ℚ) (heights : List ℚ) (x radius : ℚ) : List ℚ :=
  heights.mapIdx (deformAt s x radius)

/-- A sequence of deformTerrain calls (center, radius), applied left to
right. -/
def deformSeq (s : ℚ → ℚ) (heights : List ℚ) (calls : List (ℚ × ℚ)) : List ℚ :=
  calls.foldl (fun hs c => deformTerrain s hs c.1 c.2) heights

/-- A flat height field with the matchwide sample count
TERRAIN_SEGMENTS + 1. -/
def flatField (h : ℚ) : List ℚ := List.replicate (TERRAIN_SEGMENTS + 1) h

/-- The flat field of height 5 with the single sample at index 101
raised to 7; used to exhibit the floor-based (not nearest-sample)
behavior of the height lookup. -/
def bumpField : List ℚ := (flatField 5).set 101 7

/-- Concrete stand-in for `Math.sqrt` returning zero everywhere; a valid
instance of a nonnegative-valued square root stand-in. -/
def sqrtZero : ℚ → ℚ := fun _ => 0

/-- Concrete stand-in for `Math.sqrt` agreeing with the real square root
at 1 and nonnegative everywhere. -/
def sqrtOne : ℚ → ℚ := fun q => if q = 1 then 1 else 0

/-- Concrete positive stand-in for `Math.sqrt`: the real square root of
the only value it is applied to below, 7/100, is about 0.2646, in
particular positive, and only positivity matters there. -/
def sqrtPos : ℚ → ℚ := fun _ => 1

/-! ## Theorems -/

/-- Reading a list through getD at an in-bounds index gives the element. -/
theorem getD_eq_get_of_lt {α : Type} (l : List α) (d : α) {i : ℕ} (h : i < l.length) :
    l.getD i d = l[i] := by
  simp [List.getD_eq_getElem?_getD, List.getElem?_eq_getElem h]

/-- The worm read by the skip loop at an in-bounds index is a member of
the roster. -/
theorem getD_mem_of_lt (ws : List Worm) {i : ℕ} (h : i < ws.length) :
    ws.getD i defaultWorm ∈ ws := by
  rw [getD_eq_get_of_lt ws defaultWorm h]
  exact List.getElem_mem h

/-- The skip loop returns an in-bounds index when started in bounds. -/
theorem skipDeadAux_fst_lt (ws : List Worm) (hn : 0 < ws.length) :
    ∀ (fuel idx attempts : ℕ), idx < ws.length →
      (skipDeadAux ws fuel idx attempts).1 < ws.length := by
  intro fuel
  induction fuel with
  | zero => intro idx attempts h; exact h
  | succ f ih =>
    intro idx attempts h
    by_cases hd : (ws.getD idx defaultWorm).isDead
    · simp only [skipDeadAux, hd, if_true]
      exact ih _ _ (Nat.mod_lt _ hn)
    · simp only [skipDeadAux, if_neg hd]
      exact h

/-- If the skip loop stops before exhausting its fuel, it stopped on a
live worm. -/
theorem skipDeadAux_alive (ws : List Worm) :
    ∀ (fuel idx attempts : ℕ),
      (skipDeadAux ws fuel idx attempts).2 < attempts + fuel →
      (ws.getD (skipDeadAux ws fuel idx attempts).1 defaultWorm).isDead = false := by
  intro fuel
  induction fuel with
  | zero =>
    intro idx attempts h
    simp only [skipDeadAux, Nat.add_zero] at h
    exact absurd h (lt_irrefl attempts)
  | succ f ih =>
    intro idx attempts h
    by_cases hd : (ws.getD idx defaultWorm).isDead
    · simp only [skipDeadAux, hd, if_true] at h ⊢
      apply ih
      omega
    · simp only [skipDeadAux, if_neg hd] at h ⊢
      simpa using hd

/-- If the skip loop exhausts its fuel, every index it visited held a
dead worm: the `fuel` indices `idx, idx+1, …` taken cyclically. -/
theorem skipDeadAux_all_dead (ws : List Worm) (hn : 0 < ws.length) :
    ∀ (fuel idx attempts : ℕ), idx < ws.length →
      attempts + fuel ≤ (skipDeadAux ws fuel idx attempts).2 →
      ∀ j < fuel, (ws.getD ((idx + j) % ws.length) defaultWorm).isDead = true := by
  intro fuel
  induction fuel with
  | zero => intro idx attempts _ _ j hj; omega
  | succ f ih =>
    intro idx attempts hidx hres j hj
    by_cases hd : (ws.getD idx defaultWorm).isDead
    · simp only [skipDeadAux, hd, if_true] at hres
      match j with
      | 0 =>
        rw [Nat.add_zero, Nat.mod_eq_of_lt hidx]
        exact hd
      | j' + 1 =>
        have hrec := ih ((idx + 1) % ws.length) (attempts + 1) (Nat.mod_lt _ hn)
          (by omega) j' (by omega)
        rw [Nat.mod_add_mod] at hrec
        have harith : idx + 1 + j' = idx + (j' + 1) := by omega
        rwa [harith] at hrec
    · simp only [skipDeadAux, if_neg hd] at hres
      omega

/-- If every worm is dead, the skip loop burns all its fuel. -/
theorem skipDeadAux_exhausts (ws : List Worm)
    (hdead : ∀ w ∈ ws, w.isDead = true) :
    ∀ (fuel idx attempts : ℕ), idx < ws.length →
      (skipDeadAux ws fuel idx attempts).2 = attempts + fuel := by
  intro fuel
  induction fuel with
  | zero => intro idx attempts _; simp [skipDeadAux]
  | succ f ih =>
    intro idx attempts hidx
    have hn : 0 < ws.length := Nat.lt_of_le_of_lt (Nat.zero_le idx) hidx
    have hd : (ws.getD idx defaultWorm).isDead = true :=
      hdead _ (getD_mem_of_lt ws hidx)
    simp only [skipDeadAux, hd, if_true]
    rw [ih _ _ (Nat.mod_lt _ hn)]
    omega

/-- Scanning cyclically from any start index below n reaches every index
below n within n steps. -/
theorem cyclic_scan_reaches (n start m : ℕ) (hs : start < n) (hm : m < n) :
    ∃ j < n, (start + j) % n = m := by
  by_cases hsm : start ≤ m
  · refine ⟨m - start, by omega, ?_⟩
    rw [show start + (m - start) = m by omega, Nat.mod_eq_of_lt hm]
  · refine ⟨n + m - start, by omega, ?_⟩
    rw [show start + (n + m - start) = n + m by omega, Nat.add_mod_left,
      Nat.mod_eq_of_lt hm]

/-- The advance call reports game over exactly when every roster member
is dead. -/
theorem nextTurn_none_iff (ws : List Worm) (cur : ℕ) (h : 0 < ws.length) :
    nextTurn ws cur = none ↔ ∀ w ∈ ws, w.isDead = true := by
  constructor
  · intro hnone w hw
    by_cases hle : ws.length ≤ (skipDeadAux ws ws.length ((cur + 1) % ws.length) 0).2
    · have hall := skipDeadAux_all_dead ws h ws.length ((cur + 1) % ws.length) 0
        (Nat.mod_lt _ h) (by omega)
      obtain ⟨m, hm, rfl⟩ := List.mem_iff_getElem.mp hw
      obtain ⟨j, hj, hjm⟩ := cyclic_scan_reaches ws.length ((cur + 1) % ws.length) m
        (Nat.mod_lt _ h) hm
      have := hall j hj
      rw [hjm, getD_eq_get_of_lt ws defaultWorm hm] at this
      exact this
    · simp only [nextTurn, if_neg hle] at hnone
      exact absurd hnone (Option.some_ne_none _)
  · intro hdead
    have := skipDeadAux_exhausts ws hdead ws.length ((cur + 1) % ws.length) 0
      (Nat.mod_lt _ h)
    simp [nextTurn, this]

/-- The advance call lands on a live in-bounds index whenever some live
roster member exists. -/
theorem nextTurn_lands_alive (ws : List Worm) (cur : ℕ) (h : 0 < ws.length)
    (hlive : ∃ w ∈ ws, w.isDead = false) :
    ∃ i, nextTurn ws cur = some i ∧ i < ws.length ∧
      (ws.getD i defaultWorm).isDead = false := by
  by_cases hle : ws.length ≤ (skipDeadAux ws ws.length ((cur + 1) % ws.length) 0).2
  · exfalso
    have hnone : nextTurn ws cur = none := by simp only [nextTurn, if_pos hle]
    obtain ⟨w, hw, hwalive⟩ := hlive
    have := (nextTurn_none_iff ws cur h).mp hnone w hw
    rw [hwalive] at this
    exact Bool.false_ne_true this
  · refine ⟨(skipDeadAux ws ws.length ((cur + 1) % ws.length) 0).1, ?_, ?_, ?_⟩
    · simp only [nextTurn, if_neg hle]
    · exact skipDeadAux_fst_lt ws h ws.length _ 0 (Nat.mod_lt _ h)
    · exact skipDeadAux_alive ws ws.length _ 0 (by omega)

/-- Claim C1: for every roster with an arbitrary pattern of dead flags
and any current index, `nextTurn` lands on a live character whenever one
exists, and returns the game-over outcome (`none`) if and only if no
live character exists. -/
theorem claim_C1_turn_skip (ws : List Worm) (cur : ℕ) (h : 0 < ws.length) :
    ((∃ w ∈ ws, w.isDead = false) →
      ∃ i, nextTurn ws cur = some i ∧ i < ws.length ∧
        (ws.getD i defaultWorm).isDead = false) ∧
    (nextTurn ws cur = none ↔ ∀ w ∈ ws, w.isDead = true) :=
  ⟨fun hlive => nextTurn_lands_alive ws cur h hlive, nextTurn_none_iff ws cur h⟩

/-- Witness for claim C1: the turn-skip theorem applied to a concrete
four-worm roster holding a live character. -/
theorem claim_C1_turn_skip_witness :
    0 < rosterMixed.length ∧
    (∃ i, nextTurn rosterMixed 1 = some i ∧ i < rosterMixed.length ∧
      (rosterMixed.getD i defaultWorm).isDead = false) :=
  ⟨by decide, (claim_C1_turn_skip rosterMixed 1 (by decide)).1 (by decide)⟩

/-- Claim C8: with every team-1 character dead but team-2 characters
alive, the next advance from index 0 does NOT report game over: it hands
the turn to the live team-2 character at index 1. The source only ends
the match when every worm of both teams is dead. -/
theorem claim_C8_team_wipe_not_game_over :
    (∀ w ∈ rosterMixed, w.teamId = 1 → w.isDead = true) ∧
    (rosterMixed.getD 1 defaultWorm).teamId = 2 ∧
    nextTurn rosterMixed 0 = some 1 ∧
    nextTurn rosterMixed 0 ≠ none := by
  refine ⟨by decide, by decide, by decide, by decide⟩

/-- The hp produced by the impact body is always the old hp minus the
distance-based damage (zero outside the radius): the subtraction is
never clamped. -/
theorem impactWorm_hp (s : ℚ → ℚ) (ix iy : ℚ) (w : Worm) :
    (impactWorm s ix iy w).hp =
      w.hp - explosionDamage (s ((w.x - ix) * (w.x - ix) + (w.y - iy) * (w.y - iy))) := by
  unfold impactWorm explosionDamage
  by_cases hlt :
      s ((w.x - ix) * (w.x - ix) + (w.y - iy) * (w.y - iy)) < explosionRadius
  · simp only [if_pos hlt]
  · simp only [if_neg hlt, sub_zero]

/-- Claim C2: evaluation of the impact body on a living worm positioned
exactly at the impact point. The damage is the full `maxDamage` of 40
as the claim states, but the x-position is NOT left unchanged: the
source divides dx by the zero distance, yielding NaN (modelled `none`),
which it adds into the stored position. -/
theorem claim_C2_zero_distance_nan :
    (impactWorm sqrt16 3 2 wormAtImpact).hp = wormAtImpact.hp - 40 ∧
    (impactWorm sqrt16 3 2 wormAtImpact).x = none := by
  norm_num [impactWorm, sqrt16, wormAtImpact, jsDiv, explosionRadius, maxDamage]

/-- Claim C3 (amended): the hp subtraction of the impact body is not
clamped at zero: the persisted hp is always the old hp minus the
distance damage, and whenever that value is at or below zero the worm is
marked dead (with the possibly negative hp persisted). -/
theorem claim_C3_unclamped_hp_death (s : ℚ → ℚ) (ix iy : ℚ) (w : Worm) :
    (impactWorm s ix iy w).hp =
      w.hp - explosionDamage (s ((w.x - ix) * (w.x - ix) + (w.y - iy) * (w.y - iy))) ∧
    ((impactWorm s ix iy w).hp ≤ 0 → (impactWorm s ix iy w).isDead = true) := by
  refine ⟨impactWorm_hp s ix iy w, ?_⟩
  intro hle
  unfold impactWorm at hle ⊢
  by_cases hlt :
      s ((w.x - ix) * (w.x - ix) + (w.y - iy) * (w.y - iy)) < explosionRadius
  · simp only [if_pos hlt] at hle ⊢
    simp [hle]
  · simp only [if_neg hlt] at hle ⊢
    simp [hle]

/-- Counterexample to claim C3 as stated: a worm with 10 hp at planar
distance 4 from the impact takes 20 damage and its persisted hp becomes
-10, a negative value, not 0. -/
theorem claim_C3_counterexample :
    (impactWorm sqrt16 0 0 wormLowHp).hp = -10 ∧
    ¬(0 ≤ (impactWorm sqrt16 0 0 wormLowHp).hp) ∧
    (impactWorm sqrt16 0 0 wormLowHp).isDead = true := by
  norm_num [impactWorm, sqrt16, wormLowHp, jsDiv, explosionRadius, maxDamage]

/-- Witness for claim C3 (amended): the death-marking implication
discharged on the concrete low-hp worm. -/
theorem claim_C3_witness :
    (impactWorm sqrt16 0 0 wormLowHp).hp ≤ 0 ∧
    (impactWorm sqrt16 0 0 wormLowHp).isDead = true :=
  ⟨by norm_num [impactWorm, sqrt16, wormLowHp, jsDiv, explosionRadius, maxDamage],
    (claim_C3_unclamped_hp_death sqrt16 0 0 wormLowHp).2
      (by norm_num [impactWorm, sqrt16, wormLowHp, jsDiv, explosionRadius, maxDamage])⟩

/-- Claim C4: the damage falloff of handleExplosion as a function of the
planar distance: inside the radius it is floor(maxDamage * (1 -
dist/radius)), it is 40 at distance 0, it is 0 at the radius, and it is
monotonically non-increasing in distance. -/
theorem claim_C4_damage_falloff :
    (∀ d : ℚ, d < explosionRadius →
      explosionDamage d = ⌊maxDamage * (1 - d / explosionRadius)⌋) ∧
    explosionDamage 0 = 40 ∧
    explosionDamage explosionRadius = 0 ∧
    (∀ d1 d2 : ℚ, d1 ≤ d2 → explosionDamage d2 ≤ explosionDamage d1) := by
  refine ⟨fun d hd => by simp only [explosionDamage, if_pos hd],
    by norm_num [explosionDamage, explosionRadius, maxDamage],
    by norm_num [explosionDamage, explosionRadius, maxDamage], ?_⟩
  intro d1 d2 h12
  by_cases h2 : d2 < explosionRadius
  · have h1 : d1 < explosionRadius := lt_of_le_of_lt h12 h2
    simp only [explosionDamage, if_pos h1, if_pos h2]
    apply Int.floor_le_floor
    simp only [maxDamage, explosionRadius]
    linarith
  · simp only [explosionDamage, if_neg h2]
    by_cases h1 : d1 < explosionRadius
    · simp only [if_pos h1]
      apply Int.floor_nonneg.mpr
      simp only [explosionRadius] at h1
      simp only [maxDamage, explosionRadius]
      linarith
    · simp only [if_neg h1]
      exact le_refl 0

/-- Witness for claim C4: the falloff theorem applied at the concrete
distances 2 and 5. -/
theorem claim_C4_witness :
    (2 : ℚ) < explosionRadius ∧
    explosionDamage 2 = ⌊maxDamage * (1 - 2 / explosionRadius)⌋ ∧
    (2 : ℚ) ≤ 5 ∧ explosionDamage 5 ≤ explosionDamage 2 :=
  ⟨by norm_num [explosionRadius], claim_C4_damage_falloff.1 2 (by norm_num [explosionRadius]),
    by norm_num, claim_C4_damage_falloff.2.2.2 2 5 (by norm_num)⟩

/-- Claim C7 (amended): the impact body is applied to dead characters
exactly as to living ones: a dead worm within the radius has its hp
reduced by the distance damage; only outside the radius are hp and
position unchanged. The dead flag itself stays set. -/
theorem claim_C7_dead_not_excluded (s : ℚ → ℚ) (ix iy : ℚ) (w : Worm)
    (hd : w.isDead = true) :
    (impactWorm s ix iy w).hp =
      w.hp - explosionDamage (s ((w.x - ix) * (w.x - ix) + (w.y - iy) * (w.y - iy))) ∧
    (¬ (s ((w.x - ix) * (w.x - ix) + (w.y - iy) * (w.y - iy)) < explosionRadius) →
      (impactWorm s ix iy w).x = some w.x) ∧
    (impactWorm s ix iy w).isDead = true := by
  refine ⟨impactWorm_hp s ix iy w, ?_, ?_⟩
  · intro hge
    unfold impactWorm
    simp only [if_neg hge]
  · unfold impactWorm
    by_cases hlt :
        s ((w.x - ix) * (w.x - ix) + (w.y - iy) * (w.y - iy)) < explosionRadius
    · simp [if_pos hlt, hd]
    · simp [if_neg hlt, hd]

/-- Counterexample to claim C7 as stated: a dead worm at planar distance
4 from the impact has its hp reduced from 0 to -20 and its x-position
shifted from 4 to 6 — dead characters are not excluded. -/
theorem claim_C7_counterexample :
    deadWorm.isDead = true ∧
    (impactWorm sqrt16 0 0 deadWorm).hp = -20 ∧ deadWorm.hp = 0 ∧
    (impactWorm sqrt16 0 0 deadWorm).x = some 6 ∧ deadWorm.x = 4 := by
  norm_num [impactWorm, sqrt16, deadWorm, jsDiv, explosionRadius, maxDamage]

/-- Witness for claim C7 (amended): the theorem applied to the concrete
dead worm. -/
theorem claim_C7_witness :
    deadWorm.isDead = true ∧
    ((impactWorm sqrt16 0 0 deadWorm).hp =
      deadWorm.hp - explosionDamage
        (sqrt16 ((deadWorm.x - 0) * (deadWorm.x - 0) + (deadWorm.y - 0) * (deadWorm.y - 0))) ∧
    (¬ (sqrt16 ((deadWorm.x - 0) * (deadWorm.x - 0) + (deadWorm.y - 0) * (deadWorm.y - 0)) <
        explosionRadius) →
      (impactWorm sqrt16 0 0 deadWorm).x = some deadWorm.x) ∧
    (impactWorm sqrt16 0 0 deadWorm).isDead = true) :=
  ⟨by decide, claim_C7_dead_not_excluded sqrt16 0 0 deadWorm (by decide)⟩

/-- Claim C10 (amended): the horizontal-movement handler clamps, so a
position inside the playable width stays inside it after any movement
input. (Knockback, by contrast, is unclamped: see the counterexample.) -/
theorem claim_C10_movement_clamped (keys : MoveKeys) (x : ℚ)
    (h1 : -(TERRAIN_WIDTH / 2) ≤ x) (h2 : x ≤ TERRAIN_WIDTH / 2) :
    -(TERRAIN_WIDTH / 2) ≤ moveActiveWorm keys x ∧
      moveActiveWorm keys x ≤ TERRAIN_WIDTH / 2 := by
  simp only [moveActiveWorm, TERRAIN_WIDTH] at *
  norm_num at *
  split_ifs <;> constructor <;> linarith

/-- Witness for claim C10 (amended): the movement theorem applied at the
left edge with the left key held. -/
theorem claim_C10_witness :
    -(TERRAIN_WIDTH / 2) ≤ (-100 : ℚ) ∧ (-100 : ℚ) ≤ TERRAIN_WIDTH / 2 ∧
    (-(TERRAIN_WIDTH / 2) ≤ moveActiveWorm ⟨true, false⟩ (-100) ∧
      moveActiveWorm ⟨true, false⟩ (-100) ≤ TERRAIN_WIDTH / 2) :=
  ⟨by norm_num [TERRAIN_WIDTH], by norm_num [TERRAIN_WIDTH],
    claim_C10_movement_clamped ⟨true, false⟩ (-100)
      (by norm_num [TERRAIN_WIDTH]) (by norm_num [TERRAIN_WIDTH])⟩

/-- Counterexample to claim C10 as stated: knockback is not clamped: a
living worm at x = 99 hit by an impact at x = 95 is pushed to x = 101,
outside the playable width [-100, 100], and that value is persisted. -/
theorem claim_C10_counterexample :
    (impactWorm sqrt16 95 0 wormNearEdge).x = some 101 ∧
    ¬((101 : ℚ) ≤ TERRAIN_WIDTH / 2) := by
  norm_num [impactWorm, sqrt16, wormNearEdge, jsDiv, explosionRadius, maxDamage, TERRAIN_WIDTH]

/-- The world coordinate of sample i simplifies to i - 100. -/
theorem worldX_eq (i : ℕ) : worldX i = (i : ℚ) - 100 := by
  unfold worldX TERRAIN_SEGMENTS TERRAIN_WIDTH
  push_cast
  ring

/-- The center-index computation of the terrain code simplifies to the
floor of x + 100. -/
theorem centerFloor_eq (x : ℚ) :
    ⌊((x + TERRAIN_WIDTH / 2) / TERRAIN_WIDTH) * (TERRAIN_SEGMENTS : ℚ)⌋ = ⌊x + 100⌋ := by
  congr 1
  unfold TERRAIN_WIDTH TERRAIN_SEGMENTS
  push_cast
  ring

/-- The radius-to-indices computation of the terrain code simplifies to
the floor of radius * 2. -/
theorem radiusFloor_eq (r : ℚ) :
    ⌊(r / TERRAIN_WIDTH) * (TERRAIN_SEGMENTS : ℚ) * 2⌋ = ⌊r * 2⌋ := by
  congr 1
  unfold TERRAIN_WIDTH TERRAIN_SEGMENTS
  push_cast
  ring

/-- For a radius of at least one half, the integer loop half-width
floor(radius * 2) dominates the radius itself. -/
theorem two_mul_floor_ge {r : ℚ} (hr : 1 / 2 ≤ r) : r ≤ (⌊r * 2⌋ : ℚ) := by
  rcases le_or_lt 1 r with h1 | h1
  · have := Int.sub_one_lt_floor (r * 2)
    linarith
  · have h2 : (1 : ℤ) ≤ ⌊r * 2⌋ := Int.le_floor.mpr (by push_cast; linarith)
    have h3 : (1 : ℚ) ≤ (⌊r * 2⌋ : ℚ) := by exact_mod_cast h2
    linarith

/-- Coverage of the deformTerrain loop range: when the radius is at
least one half, every sample whose world coordinate lies strictly within
the radius of the center has its index inside the loop range. -/
theorem crater_coverage (x r : ℚ) (i : ℕ) (hr : 1 / 2 ≤ r)
    (hd : |worldX i - x| < r) :
    ⌊x + 100⌋ - ⌊r * 2⌋ ≤ (i : ℤ) ∧ (i : ℤ) ≤ ⌊x + 100⌋ + ⌊r * 2⌋ := by
  rw [worldX_eq, abs_lt] at hd
  have h2r : r ≤ (⌊r * 2⌋ : ℚ) := two_mul_floor_ge hr
  have hfl : (⌊x + 100⌋ : ℚ) ≤ x + 100 := Int.floor_le _
  constructor
  · have : ((⌊x + 100⌋ - ⌊r * 2⌋ : ℤ) : ℚ) ≤ (i : ℚ) := by
      push_cast
      linarith [hd.1]
    exact_mod_cast this
  · have : (i : ℤ) ≤ ⌊x + 100 + (⌊r * 2⌋ : ℤ)⌋ :=
      Int.le_floor.mpr (by push_cast; linarith [hd.2])
    rwa [Int.floor_add_int] at this

/-- The per-index deformation never raises a sample when the square-root
stand-in is nonnegative-valued (as Math.sqrt is). -/
theorem deformAt_le (s : ℚ → ℚ) (hs : ∀ q, 0 ≤ s q) (x r : ℚ) (i : ℕ) (h : ℚ) :
    deformAt s x r i h ≤ h := by
  simp only [deformAt]
  split_ifs
  · exact sub_le_self _ (hs _)
  · exact le_refl _
  · exact le_refl _

/-- A sample whose world coordinate is at or beyond the radius from the
center is untouched by the deformation. -/
theorem deformAt_outside (s : ℚ → ℚ) (x r : ℚ) (i : ℕ) (h : ℚ)
    (hfar : r ≤ |worldX i - x|) :
    deformAt s x r i h = h := by
  simp only [deformAt]
  split_ifs with h1 h2
  · exact absurd h2 (not_lt.mpr hfar)
  · rfl
  · rfl

/-- A valid sample whose world coordinate is strictly within a radius of
at least one half of the center is lowered by exactly the square-root
term. -/
theorem deformAt_inside (s : ℚ → ℚ) (x r : ℚ) (i : ℕ) (h : ℚ)
    (hr : 1 / 2 ≤ r) (hi : i ≤ TERRAIN_SEGMENTS)
    (hnear : |worldX i - x| < r) :
    deformAt s x r i h = h - s (r * r - |worldX i - x| * |worldX i - x|) := by
  obtain ⟨hlo, hhi⟩ := crater_coverage x r i hr hnear
  simp only [deformAt]
  rw [centerFloor_eq, radiusFloor_eq]
  rw [if_pos ⟨hlo, hhi, by exact_mod_cast hi⟩, if_pos hnear]

/-- One deformTerrain call preserves the number of samples. -/
theorem deformTerrain_length (s : ℚ → ℚ) (heights : List ℚ) (x r : ℚ) :
    (deformTerrain s heights x r).length = heights.length := by
  unfold deformTerrain
  exact List.length_mapIdx

/-- Reading a deformed field at an in-bounds index gives the per-index
deformation of the old sample. -/
theorem deformTerrain_getD (s : ℚ → ℚ) (heights : List ℚ) (x r : ℚ) (i : ℕ)
    (hi : i < heights.length) :
    (deformTerrain s heights x r).getD i 0 = deformAt s x r i (heights.getD i 0) := by
  have hlen : i < (List.mapIdx (deformAt s x r) heights).length := by
    rw [List.length_mapIdx]
    exact hi
  unfold deformTerrain
  rw [getD_eq_get_of_lt _ _ hlen, getD_eq_get_of_lt _ _ hi]
  simp [List.get_mapIdx heights (deformAt s x r) i hi hlen]

/-- One deformTerrain call never raises any sample. -/
theorem deformTerrain_le (s : ℚ → ℚ) (hs : ∀ q, 0 ≤ s q)
    (heights : List ℚ) (x r : ℚ) (i : ℕ) :
    (deformTerrain s heights x r).getD i 0 ≤ heights.getD i 0 := by
  by_cases hi : i < heights.length
  · rw [deformTerrain_getD s heights x r i hi]
    exact deformAt_le s hs x r i _
  · rw [List.getD_eq_default _ _ (by omega : heights.length ≤ i),
      List.getD_eq_default _ _ (by rw [deformTerrain_length]; omega)]

/-- Claim C5: over any sequence of deformTerrain calls with arbitrary
centers and radii, the sample count is fixed and every stored height
sample is non-increasing, provided the square-root stand-in is
nonnegative-valued, as Math.sqrt is. -/
theorem claim_C5_terrain_monotone (s : ℚ → ℚ) (hs : ∀ q, 0 ≤ s q)
    (heights : List ℚ) (calls : List (ℚ × ℚ)) :
    (deformSeq s heights calls).length = heights.length ∧
    ∀ i : ℕ, (deformSeq s heights calls).getD i 0 ≤ heights.getD i 0 := by
  induction calls generalizing heights with
  | nil => exact ⟨rfl, fun i => le_refl _⟩
  | cons c cs ih =>
    have hstep : deformSeq s heights (c :: cs) =
        deformSeq s (deformTerrain s heights c.1 c.2) cs := rfl
    rw [hstep]
    obtain ⟨hl, hle⟩ := ih (deformTerrain s heights c.1 c.2)
    exact ⟨hl.trans (deformTerrain_length s heights c.1 c.2),
      fun i => (hle i).trans (deformTerrain_le s hs heights c.1 c.2 i)⟩

/-- Witness for claim C5: the monotonicity theorem applied to a concrete
flat field and a concrete two-call sequence, read at sample 100. -/
theorem claim_C5_witness :
    0 ≤ sqrtZero 9 ∧
    (deformSeq sqrtZero (flatField 5) [(0, 6), (3, 6)]).length = (flatField 5).length ∧
    (deformSeq sqrtZero (flatField 5) [(0, 6), (3, 6)]).getD 100 0 ≤ (flatField 5).getD 100 0 :=
  ⟨le_refl 0,
    (claim_C5_terrain_monotone sqrtZero (fun _ => le_refl 0) (flatField 5) [(0, 6), (3, 6)]).1,
    (claim_C5_terrain_monotone sqrtZero (fun _ => le_refl 0) (flatField 5) [(0, 6), (3, 6)]).2 100⟩

/-- Reading a flat field at a valid index gives its constant height. -/
theorem flatField_getD (h : ℚ) {i : ℕ} (hi : i ≤ TERRAIN_SEGMENTS) :
    (flatField h).getD i 0 = h := by
  rw [flatField, getD_eq_get_of_lt _ _ (by rw [List.length_replicate]; omega)]
  exact List.getElem_replicate _ _

/-- Claim C6 (amended): after a single deformTerrain call with radius at
least one half on a flat field (and a square-root stand-in agreeing with
the real root at radius squared), a sample located exactly at the crater
center drops by exactly the radius, every valid sample strictly within
the radius drops by exactly the square-root term sqrt(radius² − dist²),
and every sample at or beyond the radius is unchanged. For radii below
one half the loop range floor(radius * 2) can truncate to zero and miss
in-radius samples: see the counterexample. -/
theorem claim_C6_crater_shape (s : ℚ → ℚ) (h cx radius : ℚ)
    (hr : 1 / 2 ≤ radius) (hsr : s (radius * radius) = radius) :
    (∀ i : ℕ, i ≤ TERRAIN_SEGMENTS → worldX i = cx →
      (deformTerrain s (flatField h) cx radius).getD i 0 = h - radius) ∧
    (∀ i : ℕ, i ≤ TERRAIN_SEGMENTS → |worldX i - cx| < radius →
      (deformTerrain s (flatField h) cx radius).getD i 0 =
        h - s (radius * radius - |worldX i - cx| * |worldX i - cx|)) ∧
    (∀ i : ℕ, i ≤ TERRAIN_SEGMENTS → radius ≤ |worldX i - cx| →
      (deformTerrain s (flatField h) cx radius).getD i 0 = h) := by
  have hlen : ∀ i : ℕ, i ≤ TERRAIN_SEGMENTS → i < (flatField h).length := by
    intro i hi
    rw [flatField, List.length_replicate]
    omega
  have hin : ∀ i : ℕ, i ≤ TERRAIN_SEGMENTS → |worldX i - cx| < radius →
      (deformTerrain s (flatField h) cx radius).getD i 0 =
        h - s (radius * radius - |worldX i - cx| * |worldX i - cx|) := by
    intro i hi hnear
    rw [deformTerrain_getD s (flatField h) cx radius i (hlen i hi), flatField_getD h hi]
    exact deformAt_inside s cx radius i h hr hi hnear
  refine ⟨?_, hin, ?_⟩
  · intro i hi hcenter
    have hz : |worldX i - cx| = 0 := by rw [hcenter, sub_self, abs_zero]
    have := hin i hi (by rw [hz]; linarith)
    rwa [hz, mul_zero, sub_zero, hsr] at this
  · intro i hi hfar
    rw [deformTerrain_getD s (flatField h) cx radius i (hlen i hi), flatField_getD h hi]
    exact deformAt_outside s cx radius i h hfar

/-- Witness for claim C6 (amended): the crater-shape theorem applied
with radius 1, center 0, flat height 5, read at the center sample 100. -/
theorem claim_C6_witness :
    (1 / 2 : ℚ) ≤ 1 ∧ sqrtOne (1 * 1) = 1 ∧ 100 ≤ TERRAIN_SEGMENTS ∧ worldX 100 = 0 ∧
    (deformTerrain sqrtOne (flatField 5) 0 1).getD 100 0 = 5 - 1 :=
  ⟨by norm_num, by norm_num [sqrtOne], by norm_num [TERRAIN_SEGMENTS],
    by rw [worldX_eq]; norm_num,
    (claim_C6_crater_shape sqrtOne 5 0 1 (by norm_num) (by norm_num [sqrtOne])).1 100
      (by norm_num [TERRAIN_SEGMENTS]) (by rw [worldX_eq]; norm_num)⟩

/-- Counterexample to claim C6 as stated: for the call
deformTerrain(center 7/10, radius 2/5) on a flat field of height 0, the
sample at index 101 has world distance 3/10 < 2/5 from the center, so
the claim demands it drop by sqrt(radius² − dist²) = sqrt(7/100) > 0;
but radiusIndices = floor(2 * 2/5) = 0 truncates the loop range to the
single index 100, so sample 101 is left unchanged at 0. -/
theorem claim_C6_counterexample :
    worldX 101 = 1 ∧
    |worldX 101 - 7 / 10| < 2 / 5 ∧
    (0 : ℚ) - sqrtPos ((2 / 5) * (2 / 5) - |worldX 101 - 7 / 10| * |worldX 101 - 7 / 10|) = -1 ∧
    (deformTerrain sqrtPos (flatField 0) (7 / 10) (2 / 5)).getD 101 0 = 0 ∧
    (0 : ℚ) ≠ -1 := by
  have hw : worldX 101 = 1 := by rw [worldX_eq]; norm_num
  have habs : |worldX 101 - 7 / 10| = 3 / 10 := by
    rw [hw]
    rw [show (1 : ℚ) - 7 / 10 = 3 / 10 by norm_num]
    rw [abs_of_nonneg (by norm_num)]
  refine ⟨hw, by rw [habs]; norm_num, by rw [habs]; norm_num [sqrtPos], ?_, by norm_num⟩
  have h101 : (101 : ℕ) < (flatField (0 : ℚ)).length := by
    rw [flatField, List.length_replicate, TERRAIN_SEGMENTS]
    omega
  rw [deformTerrain_getD sqrtPos (flatField 0) (7 / 10) (2 / 5) 101 h101,
    flatField_getD 0 (by norm_num [TERRAIN_SEGMENTS])]
  simp only [deformAt]
  rw [centerFloor_eq, radiusFloor_eq]
  rw [show ⌊(7 / 10 : ℚ) + 100⌋ = 100 by rw [Int.floor_eq_iff]; norm_num]
  rw [show ⌊(2 / 5 : ℚ) * 2⌋ = 0 by rw [Int.floor_eq_iff]; norm_num]
  split_ifs with hc h2
  · exact absurd hc.2.1 (by push_cast; omega)
  · rfl
  · rfl

/-- Claim C9 (amended): the height lookup uses the floor index
floor(x + TERRAIN_WIDTH/2) (the sample at or immediately to the left of
x, not the nearest sample): a negative index returns the first sample,
an index above TERRAIN_SEGMENTS returns the last sample, and otherwise
the lookup reads exactly that floor index, which is always in bounds
for a matchwide field — the lookup never indexes out of range. -/
theorem claim_C9_floor_lookup (heights : List ℚ) (x : ℚ)
    (hlen : heights.length = TERRAIN_SEGMENTS + 1) :
    (⌊x + TERRAIN_WIDTH / 2⌋ < 0 → getTerrainHeightAt heights x = heights.getD 0 0) ∧
    ((TERRAIN_SEGMENTS : ℤ) < ⌊x + TERRAIN_WIDTH / 2⌋ →
      getTerrainHeightAt heights x = heights.getD TERRAIN_SEGMENTS 0) ∧
    (0 ≤ ⌊x + TERRAIN_WIDTH / 2⌋ → ⌊x + TERRAIN_WIDTH / 2⌋ ≤ (TERRAIN_SEGMENTS : ℤ) →
      getTerrainHeightAt heights x = heights.getD (⌊x + TERRAIN_WIDTH / 2⌋).toNat 0 ∧
      (⌊x + TERRAIN_WIDTH / 2⌋).toNat < heights.length) := by
  have hw2 : (TERRAIN_WIDTH / 2 : ℚ) = 100 := by norm_num [TERRAIN_WIDTH]
  have key : ⌊((x + TERRAIN_WIDTH / 2) / TERRAIN_WIDTH) * (TERRAIN_SEGMENTS : ℚ)⌋ =
      ⌊x + TERRAIN_WIDTH / 2⌋ := by
    rw [centerFloor_eq, hw2]
  refine ⟨?_, ?_, ?_⟩
  · intro hneg
    simp only [getTerrainHeightAt]
    rw [key, if_pos hneg]
  · intro hbig
    simp only [getTerrainHeightAt]
    rw [key, if_neg (by omega), if_pos hbig]
  · intro h0 h200
    simp only [getTerrainHeightAt]
    rw [key, if_neg (by omega), if_neg (by omega)]
    refine ⟨rfl, ?_⟩
    rw [hlen]
    simp only [TERRAIN_SEGMENTS] at h200 ⊢
    omega

/-- Witness for claim C9 (amended): the lookup theorem applied to a flat
field at x = 0, whose floor index 100 is inside the valid range. -/
theorem claim_C9_witness :
    (flatField 7).length = TERRAIN_SEGMENTS + 1 ∧
    0 ≤ ⌊(0 : ℚ) + TERRAIN_WIDTH / 2⌋ ∧ ⌊(0 : ℚ) + TERRAIN_WIDTH / 2⌋ ≤ (TERRAIN_SEGMENTS : ℤ) ∧
    (getTerrainHeightAt (flatField 7) 0 = (flatField 7).getD (⌊(0 : ℚ) + TERRAIN_WIDTH / 2⌋).toNat 0 ∧
      (⌊(0 : ℚ) + TERRAIN_WIDTH / 2⌋).toNat < (flatField 7).length) :=
  ⟨by rw [flatField, List.length_replicate],
    by norm_num [TERRAIN_WIDTH],
    by norm_num [TERRAIN_WIDTH, TERRAIN_SEGMENTS],
    (claim_C9_floor_lookup (flatField 7) 0 (by rw [flatField, List.length_replicate])).2.2
      (by norm_num [TERRAIN_WIDTH]) (by norm_num [TERRAIN_WIDTH, TERRAIN_SEGMENTS])⟩

/-- Setting one sample and reading a different in-bounds index gives the
old sample. -/
theorem getD_set_of_ne {α : Type} (l : List α) (i j : ℕ) (a d : α)
    (hne : i ≠ j) (hj : j < l.length) :
    (l.set i a).getD j d = l.getD j d := by
  rw [getD_eq_get_of_lt _ _ (by rw [List.length_set]; exact hj),
    getD_eq_get_of_lt _ _ hj]
  exact List.getElem_set_of_ne hne a _

/-- Setting one in-bounds sample and reading it back gives the new
value. -/
theorem getD_set_self_of_lt {α : Type} (l : List α) (i : ℕ) (a d : α)
    (hi : i < l.length) :
    (l.set i a).getD i d = a := by
  rw [getD_eq_get_of_lt _ _ (by rw [List.length_set]; exact hi)]
  exact List.getElem_set_self _

/-- Counterexample to claim C9 as stated: at x = 9/10 the nearest stored
sample is the one at index 101 (world coordinate 1, distance 1/10, all
other samples being strictly farther), whose height in the bumped field
is 7; but the lookup floors to index 100 and returns 5. -/
theorem claim_C9_counterexample :
    getTerrainHeightAt bumpField (9 / 10) = 5 ∧
    bumpField.getD 101 0 = 7 ∧
    (∀ j : ℕ, j ≤ TERRAIN_SEGMENTS → j ≠ 101 →
      |worldX 101 - 9 / 10| < |worldX j - 9 / 10|) ∧
    (5 : ℚ) ≠ 7 := by
  have hlen : bumpField.length = 201 := by
    rw [bumpField, List.length_set, flatField, List.length_replicate, TERRAIN_SEGMENTS]
  refine ⟨?_, ?_, ?_, by norm_num⟩
  · simp only [getTerrainHeightAt]
    rw [centerFloor_eq]
    rw [show ⌊(9 / 10 : ℚ) + 100⌋ = 100 by rw [Int.floor_eq_iff]; norm_num]
    rw [if_neg (show ¬((100 : ℤ) < 0) by omega)]
    rw [if_neg (show ¬((TERRAIN_SEGMENTS : ℤ) < 100) by
      simp only [TERRAIN_SEGMENTS]; omega)]
    rw [show ((100 : ℤ)).toNat = 100 by rfl]
    rw [bumpField]
    rw [getD_set_of_ne _ _ _ _ _ (by omega)
      (by rw [flatField, List.length_replicate, TERRAIN_SEGMENTS]; omega)]
    exact flatField_getD 5 (by norm_num [TERRAIN_SEGMENTS])
  · rw [bumpField]
    rw [getD_set_self_of_lt _ _ _ _
      (by rw [flatField, List.length_replicate, TERRAIN_SEGMENTS]; omega)]
  · intro j hj hne
    have hw101 : worldX 101 = 1 := by rw [worldX_eq]; norm_num
    have habs : |worldX 101 - 9 / 10| = 1 / 10 := by
      rw [hw101, show (1 : ℚ) - 9 / 10 = 1 / 10 by norm_num, abs_of_nonneg (by norm_num)]
    rw [habs, worldX_eq]
    rcases le_or_lt j 100 with hle | hgt
    · have hcast : (j : ℚ) ≤ 100 := by exact_mod_cast hle
      have := neg_le_abs ((j : ℚ) - 100 - 9 / 10)
      linarith
    · have h102 : (102 : ℕ) ≤ j := by omega
      have hcast : (102 : ℚ) ≤ (j : ℚ) := by exact_mod_cast h102
      have := le_abs_self ((j : ℚ) - 100 - 9 / 10)
      linarith
